import Mathlib

/-!
# Verification of the webhookit audit-and-destroy engine

Shallow embedding of `main.go` of the `webhookit` repository: the
destroy pipeline (type-pattern validation, per-repository duplicate
marking, the interactive duplicate resolver, destroy-set planning,
backup, the confirmation gate and the bulk destroyer), together with
theorems settling the specification claims.

Machine strings are modelled as Lean `String` (a wrapper around
`List Char`); the Go standard-library string functions used by the
source (`strings.ToUpper`, `strings.ToLower`, `strings.TrimSpace`,
`strings.Split` with a one-character separator, `strings.Replace`,
`strings.Join`, `strconv.Itoa`, `strconv.Atoi`) are embedded
explicitly below as `go*` functions operating on the character lists,
faithful to their ASCII behaviour (the source only ever feeds them
ASCII data: status codes, `X` patterns, URLs and console input).
-/

namespace Webhookit

/-- Is `c` an ASCII decimal digit (`0`-`9`)?  This is also the
exact meaning of `\d` in Go's `regexp`. -/
def asciiIsDigit (c : Char) : Bool := 48 ≤ c.toNat && c.toNat ≤ 57

/-- Uppercase one ASCII character. -/
def asciiUpper (c : Char) : Char :=
  if 97 ≤ c.toNat ∧ c.toNat ≤ 122 then Char.ofNat (c.toNat - 32) else c

/-- Lowercase one ASCII character. -/
def asciiLower (c : Char) : Char :=
  if 65 ≤ c.toNat ∧ c.toNat ≤ 90 then Char.ofNat (c.toNat + 32) else c

/-- Embedding of `strings.ToUpper` (ASCII): uppercase every character. -/
def goToUpper (s : String) : String := String.mk (s.data.map asciiUpper)

/-- Embedding of `strings.ToLower` (ASCII): lowercase every character. -/
def goToLower (s : String) : String := String.mk (s.data.map asciiLower)

/-- White-space test used by `strings.TrimSpace` (ASCII part). -/
def isSpaceChar (c : Char) : Bool :=
  c == ' ' || c == '\t' || c == '\n' || c == '\r'

/-- Embedding of `strings.TrimSpace`: drop white space from both ends. -/
def goTrimSpace (s : String) : String :=
  String.mk (((s.data.dropWhile isSpaceChar).reverse.dropWhile isSpaceChar).reverse)

/-- Embedding of `strings.Replace(s, " ", "", -1)`: delete every space. -/
def goRemoveSpaces (s : String) : String :=
  String.mk (s.data.filter (fun c => c != ' '))

/-- Split a character list at every occurrence of `sep`
(the groups between separators, in order). -/
def consHead (c : Char) : List (List Char) → List (List Char)
  | [] => [[c]]
  | g :: gs => (c :: g) :: gs

/-- Core of `strings.Split` with a one-character separator. -/
def splitOnChar (sep : Char) : List Char → List (List Char)
  | [] => [[]]
  | c :: rest =>
    if c = sep then [] :: splitOnChar sep rest
    else consHead c (splitOnChar sep rest)

/-- Embedding of `strings.Split(s, sep)` for a one-character separator. -/
def goSplit (s : String) (sep : Char) : List String :=
  (splitOnChar sep s.data).map String.mk

/-- Embedding of `strings.Join(l, sep)`. -/
def goJoin : List String → String → String
  | [], _ => ""
  | [s], _ => s
  | s :: rest, sep => s ++ sep ++ goJoin rest sep

/-- Decimal digits of a natural number, most significant first
(fuelled helper; the fuel `n+1` always suffices). -/
def natDigitsAux : Nat → Nat → List Char
  | 0, _ => []
  | fuel + 1, n =>
    if n < 10 then [Nat.digitChar n]
    else natDigitsAux fuel (n / 10) ++ [Nat.digitChar (n % 10)]

/-- Decimal digit characters of a natural number. -/
def natDigits (n : Nat) : List Char := natDigitsAux (n + 1) n

/-- Embedding of `strconv.Itoa`: decimal string of an integer. -/
def goItoa (i : Int) : String :=
  if i < 0 then String.mk ('-' :: natDigits i.natAbs)
  else String.mk (natDigits i.toNat)

/-- Digits of a character list read as a natural number
(`none` when empty or a character is not a digit). -/
def digitsToNat : List Char → Option Nat
  | [] => none
  | l =>
    if l.all asciiIsDigit then
      some (l.foldl (fun acc c => 10 * acc + (c.toNat - 48)) 0)
    else none

/-- Embedding of `strconv.Atoi`: optional sign followed by digits. -/
def goAtoi (s : String) : Option Int :=
  match s.data with
  | '-' :: rest => (digitsToNat rest).map (fun n => -(n : Int))
  | '+' :: rest => (digitsToNat rest).map (fun n => (n : Int))
  | l => (digitsToNat l).map (fun n => (n : Int))

/-!
## Regular-expression fragment

The source compiles two kinds of regular expressions with Go's
`regexp` package and tests them with `MatchString`, which succeeds iff
the pattern matches some contiguous substring of the input:

* the fixed validation pattern `\d{3}|\d[xX][xX]|\d\d[xX]` in
  `validateTypesFlag`, and
* the string built by `convertTypesToRegex`: the type tokens with
  every `X` replaced by `\d`, joined by `|`.

Both are alternations of fixed-length sequences of literal characters,
`\d` escapes and character classes.  `RChar`/`rSeqAt`/`rMatchData`
embed exactly this fragment of the `regexp` semantics; `parseRSeq`
parses the produced pattern strings (literal characters and the `\d`
escape — the only syntax `convertTypesToRegex` emits for the token
shapes the validator accepts and for the `N/A` sentinel).
-/

/-- One position of a regular-expression alternative: a literal
character, the `\d` class, or an explicit character class. -/
inductive RChar where
  | lit (c : Char)
  | digit
  | cls (cs : List Char)
deriving DecidableEq, Repr

/-- Does one regex position match one character? -/
def rCharMatch : RChar → Char → Bool
  | RChar.lit a, c => a == c
  | RChar.digit, c => asciiIsDigit c
  | RChar.cls cs, c => cs.any (fun x => x == c)

/-- Does the alternative match a prefix of the character list? -/
def rSeqAt : List RChar → List Char → Bool
  | [], _ => true
  | _ :: _, [] => false
  | r :: rs, c :: cs => rCharMatch r c && rSeqAt rs cs

/-- `regexp.MatchString` for an alternation of fixed alternatives:
some alternative matches at some position of the input. -/
def rMatchData (alts : List (List RChar)) (s : List Char) : Bool :=
  s.tails.any (fun suf => alts.any (fun a => rSeqAt a suf))

/-- Parse one alternative of a produced pattern string: `\d` becomes
`RChar.digit`, everything else is a literal. -/
def parseRSeq : List Char → List RChar
  | [] => []
  | [c] => [RChar.lit c]
  | c1 :: c2 :: rest =>
    if c1 = '\\' ∧ c2 = 'd' then RChar.digit :: parseRSeq rest
    else RChar.lit c1 :: parseRSeq (c2 :: rest)

/-- Parse a produced pattern string: alternation on `|`. -/
def parseAlts (re : String) : List (List RChar) :=
  (splitOnChar '|' re.data).map parseRSeq

/-- Embedding of compiling `re` and calling `MatchString(s)` on the
regex fragment produced by the source. -/
def goRegexMatchString (re : String) (s : String) : Bool :=
  rMatchData (parseAlts re) s.data

/-- The regex position a converted pattern character denotes: an `X`
was replaced by `\d` (a digit wildcard), everything else is itself (a
device for stating what `parseRSeq` yields on converted tokens). -/
def toRChar (c : Char) : RChar :=
  if c = 'X' then RChar.digit else RChar.lit c

/-- The compiled validation pattern `\d{3}|\d[xX][xX]|\d\d[xX]`
(`{3}` written out). -/
def valAlts : List (List RChar) :=
  [[RChar.digit, RChar.digit, RChar.digit],
   [RChar.digit, RChar.cls ['x', 'X'], RChar.cls ['x', 'X']],
   [RChar.digit, RChar.digit, RChar.cls ['x', 'X']]]

/-- `r.MatchString(aType)` inside `validateTypesFlag`. -/
def typesTokenOK (t : String) : Bool := rMatchData valAlts t.data

/-- Embedding of `validateTypesFlag` (main.go:310): the sentinel
`none` yields `["N/A"]`; otherwise split the flag on commas, collect
the tokens the validation regex does not match anywhere, uppercase
every token, and report an error when some token failed. -/
def validateTypesFlag (typesFlag : String) : List String × Option String :=
  if goToLower typesFlag = "none" then (["N/A"], none)
  else
    let types0 := goSplit typesFlag ','
    let failed := types0.filter (fun t => !(typesTokenOK t))
    (types0.map goToUpper,
     if failed.length > 0 then some "Invalid types found" else none)

/-- Character-list core of `strings.Replace(aType, "X", "\\d", -1)`. -/
def replaceXData : List Char → List Char
  | [] => []
  | c :: rest =>
    if c = 'X' then '\\' :: 'd' :: replaceXData rest
    else c :: replaceXData rest

/-- `strings.Replace(aType, "X", "\\d", -1)` on a string. -/
def replaceX (t : String) : String := String.mk (replaceXData t.data)

/-- Embedding of `convertTypesToRegex` (main.go:336): replace every
`X` by `\d` in each type and join the results with `|`. -/
def convertTypesToRegex (types : List String) : String :=
  goJoin (types.map replaceX) "|"

/-- The destroy-match predicate of `executeDestroy` (main.go:652,657):
compile `convertTypesToRegex types` and run `MatchString` on a code. -/
def destroyMatch (types : List String) (code : String) : Bool :=
  goRegexMatchString (convertTypesToRegex types) code

/-!
## Data model

`WebHook` keeps the fields of the source's `WebHook` struct that the
destroy pipeline reads: `URL` (the deletion endpoint, the key of the
`hooksMap`), `Config.URL`, `Name`, and `LastResponse.Code`.  The
remaining fields (`TestURL`, `PingURL`, `Events`, `Active`,
`Config.ContentType`, the timestamps, `LastResponse.Status/Message`)
are carried along by the source but never branched on in
`executeDestroy`, so they are omitted from the embedding.

The mutable flags of the source's `HookWrapper` (`Duplicate`,
`Destroy`; `DestroySkip` is never assigned anywhere in the source and
therefore stays `false`) are modelled as two Boolean-valued functions
over positions of the hook list, since the wrapped hooks themselves
never change during classification.
-/

/-- The fields of a fetched webhook record read by the destroy path. -/
structure WebHook where
  id : Int
  url : String
  name : String
  configURL : String
  lastResponseCode : Int
deriving DecidableEq, Repr, Inhabited

/-- The `Code` field of a `HookWrapper`:
`strings.ToUpper(strconv.Itoa(hook.LastResponse.Code))`. -/
def hookCode (h : WebHook) : String := goToUpper (goItoa h.lastResponseCode)

/-- Building the `hooksMap` (main.go:612): a Go map keyed by
`hook.URL`, assigning each fetched hook in order (a later hook with
the same `URL` overwrites the earlier one).  The embedding lists the
map's values; Go leaves the iteration order of a map unspecified, the
embedding fixes first-insertion order of the keys.  The properties
proved about the classification below are order-independent. -/
def buildHooksMap (hooks : List WebHook) : List WebHook :=
  hooks.foldl
    (fun acc h =>
      if acc.any (fun h2 => h2.url == h.url)
      then acc.map (fun h2 => if h2.url == h.url then h else h2)
      else acc ++ [h])
    []

/-- The hook stored at position `i` of the map list. -/
def hookAt (ms : List WebHook) (i : Nat) : WebHook := ms.getD i default

/-- The `Config.URL` of the hook at position `i`. -/
def cfgAt (ms : List WebHook) (i : Nat) : String := (hookAt ms i).configURL

/-- Embedding of `canDestroy` (main.go:84): `DestroySkip` is never set
in the source, so an effective destroy is exactly `Destroy`. -/
def canDestroy (destroy destroySkip : Bool) : Bool := destroy && !destroySkip

/-- Embedding of `uniqueAppend` (main.go:375): scan the array and
return it unchanged when the input is already present, otherwise
append.  (The source defines this helper but never calls it.) -/
def uniqueAppend (array : List String) (input : String) : List String :=
  if array.elem input then array else array ++ [input]

/-- Embedding of `generatePassPhrase` (main.go:348): `length` bytes,
each `65 + rand.Intn(25)`; the random stream is an oracle `r`, and
`r i % 25` reproduces the range `[0, 25)` of `rand.Intn(25)`. -/
def generatePassPhrase (r : Nat → Nat) (length : Nat) : String :=
  String.mk ((List.range length).map (fun i => Char.ofNat (65 + r i % 25)))

/-!
## Events and outcomes

The observable actions of a destroy run, in order.  `Event.sleep`
would be emitted by a `time.Sleep` call; the source declares the
constant `requestDelay` (main.go:24) but contains no `time.Sleep`
call, so no embedded operation ever emits it.  `Outcome.fatal` is
`printError` (print + `os.Exit(1)`, main.go:727); the `ok*` outcomes
are the normal returns of `executeDestroy`.
-/

/-- The observable steps of a destroy run. -/
inductive Event where
  | fetch (repo : String)
  | sleep (ms : Nat)
  | resolverPrompt
  | backupWrite (path : String)
  | confirmPrompt
  | deleteReq (url : String)
deriving DecidableEq, Repr

/-- How a destroy run ends. -/
inductive Outcome where
  | fatal
  | okNoHooks
  | okAborted
  | okDestroyed
deriving DecidableEq, Repr

/-- The constant `requestDelay` (main.go:24), in milliseconds.  It is
declared in the source and never mentioned again. -/
def requestDelayMs : Nat := 50

/-- Is the event an inter-request delay? -/
def isSleepEv : Event → Bool
  | Event.sleep _ => true
  | _ => false

/-- Embedding of `destroyWebHook` (main.go:387): issue the delete
request; status 204 (oracle `ok url = true`) is success, anything else
is the error `"Encountered error deleting " ++ url` (transport errors
are folded into the same oracle — both produce a non-nil error). -/
def destroyWebHook (ok : String → Bool) (url : String) : Option String :=
  if ok url then none else some ("Encountered error deleting " ++ url)

/-- Embedding of `destroyWebHooks` (main.go:413), with the trace of
delete requests actually issued.  The loop appends each failure to
`errorString` and then — still inside the loop — returns as soon as
`errorString` is non-empty. -/
def destroyWebHooksRun (ok : String → Bool) :
    List String → String → List Event × Option String
  | [], _ => ([], none)
  | url :: rest, errS =>
    let errS2 :=
      match destroyWebHook ok url with
      | none => errS
      | some msg => errS ++ "- Error deleting web hook " ++ url ++ " : " ++ msg
    if errS2 = "" then
      let r := destroyWebHooksRun ok rest errS2
      (Event.deleteReq url :: r.1, r.2)
    else ([Event.deleteReq url], some errS2)

/-!
## Per-repository classification

One iteration of the hook loop of `executeDestroy` (main.go:620-660)
does three things for the current hook: collect and mark its
duplicate cluster, run the interactive duplicate resolver on the
cluster when duplicates are enabled and the cluster has at least two
members, and test the hook's `Code` against the compiled type regex
(plus the untriggered rule).  The operator's console lines are an
oracle `resolve : Nat → String`, indexed by the number of resolver
prompts issued so far in the run.  The source re-prompts on invalid
resolver input until a valid line arrives; the embedding reads one
line per prompt and applies no marks when it is invalid (the claims
below are settled at valid operator inputs, where the two coincide).
-/

/-- Does the hook at `j` join the cluster of the current hook `i`?
Transcribes the inner-loop test (main.go:628,633): not the same hook,
not already marked duplicate, and both share the current hook's
non-empty `Config.URL`. -/
def dupCandidate (ms : List WebHook) (d : Nat → Bool) (i j : Nat) : Bool :=
  (!(j == i)) && (!(d j)) && (!(cfgAt ms i == "")) && (cfgAt ms j == cfgAt ms i)

/-- The `duplicateHookWrappers` list of the current hook `i`
(main.go:622-640), as positions into the map list: the current hook
followed by every candidate in iteration order. -/
def clusterIdxs (ms : List WebHook) (d : Nat → Bool) (i : Nat) : List Nat :=
  i :: (List.range ms.length).filter (dupCandidate ms d i)

/-- The duplicate flags after processing current hook `i`: when the
cluster has a second member, the current hook and every candidate are
marked (main.go:635-636); otherwise nothing changes. -/
def markDupAt (ms : List WebHook) (d : Nat → Bool) (i : Nat) : Nat → Bool :=
  if (clusterIdxs ms d i).length > 1
  then fun j => d j || (clusterIdxs ms d i).contains j
  else d

/-- The duplicate flags after the marking pass has processed the
first `k` map positions (a device for reasoning about the full pass;
the full pass is `dupIter ms ms.length`). -/
def dupIter (ms : List WebHook) (k : Nat) : Nat → Bool :=
  (List.range k).foldl (markDupAt ms) (fun _ => false)

/-- Parse one operator line of `duplicateDiff` (main.go:497-529):
uppercase, strip spaces, split on commas; the single token `N` selects
nothing; otherwise every token must be an integer within
`[0, len-1]`, else the line is invalid (`none`). -/
def parseResolverInput (len : Nat) (input : String) : Option (List Nat) :=
  let toks := goSplit (goRemoveSpaces (goToUpper input)) ','
  if toks = ["N"] then none
  else if toks.all (fun t =>
      match goAtoi t with
      | some k => decide (0 ≤ k) && decide (k ≤ (len : Int) - 1)
      | none => false)
  then some (toks.map (fun t => ((goAtoi t).getD 0).toNat))
  else none

/-- The mutable state of one repository's classification: the
`Duplicate` and `Destroy` flags by position, the number of resolver
prompts issued so far in the run, and the events emitted. -/
structure RepoState where
  dup : Nat → Bool
  des : Nat → Bool
  rk : Nat
  tr : List Event

/-- One iteration of the hook loop of `executeDestroy`
(main.go:620-660) for the current hook `i`. -/
def hookStep (regexStr : String) (dupF untrF : Bool) (resolve : Nat → String)
    (ms : List WebHook) (st : RepoState) (i : Nat) : RepoState :=
  let cl := clusterIdxs ms st.dup i
  let dup2 := markDupAt ms st.dup i
  let doResolve := cl.length > 1 && dupF
  let des2 :=
    if doResolve then
      match parseResolverInput cl.length (resolve st.rk) with
      | some sel => fun j => st.des j || sel.any (fun k => cl.getD k 0 == j)
      | none => st.des
    else st.des
  let code := hookCode (hookAt ms i)
  let des3 :=
    if goRegexMatchString regexStr code || (untrF && code == "0")
    then fun j => if j == i then true else des2 j
    else des2
  { dup := dup2, des := des3,
    rk := if doResolve then st.rk + 1 else st.rk,
    tr := if doResolve then st.tr ++ [Event.resolverPrompt] else st.tr }

/-- Classify one repository's hooks: build the `hooksMap` and fold the
hook loop over its positions, starting from fresh wrappers (all flags
`false`). -/
def repoClassify (regexStr : String) (dupF untrF : Bool)
    (resolve : Nat → String) (rk : Nat) (hooks : List WebHook) : RepoState :=
  let ms := buildHooksMap hooks
  (List.range ms.length).foldl (hookStep regexStr dupF untrF resolve ms)
    { dup := fun _ => false, des := fun _ => false, rk := rk, tr := [] }

/-- The deletion endpoints this repository contributes
(main.go:668-675): the `URL` of every wrapper with `canDestroy`, in
map order, appended with a plain `append`. -/
def repoDestroyURLs (ms : List WebHook) (des : Nat → Bool) : List String :=
  ((List.range ms.length).filter (fun i => canDestroy (des i) false)).map
    (fun i => (hookAt ms i).url)

/-!
## The destroy run

The external world of a run, as oracles: the remote API (`fetch`,
`deleteOK`), the file system (`backupOK`), the operator (`resolve`,
`confirmInput`) and the random source (`rand`).
-/

/-- The environment of one destroy run. -/
structure Env where
  fetch : String → Except String (List WebHook)
  deleteOK : String → Bool
  backupOK : Bool
  resolve : Nat → String
  confirmInput : String
  rand : Nat → Nat

/-- The accumulator of the planning loop over repositories
(main.go:598-680): events so far, all fetched hooks (kept for the
backup when a backup path is set), the deletion endpoints collected so
far, and the resolver-prompt counter. -/
structure DestroyAcc where
  tr : List Event
  allHooks : List WebHook
  toDestroy : List String
  rk : Nat

/-- One repository of the planning loop: issue the fetch; on error log
and skip (main.go:601-604); on success classify the hooks and append
this repository's deletion endpoints with a plain `append`
(main.go:671). -/
def planStep (regexStr : String) (dupF untrF : Bool) (backupFlag : String)
    (env : Env) (acc : DestroyAcc) (repo : String) : DestroyAcc :=
  match env.fetch repo with
  | Except.error _ => { acc with tr := acc.tr ++ [Event.fetch repo] }
  | Except.ok hooks =>
    let ms := buildHooksMap hooks
    let st := repoClassify regexStr dupF untrF env.resolve acc.rk hooks
    { tr := acc.tr ++ [Event.fetch repo] ++ st.tr
      allHooks := if backupFlag ≠ "" then acc.allHooks ++ hooks else acc.allHooks
      toDestroy := acc.toDestroy ++ repoDestroyURLs ms st.des
      rk := st.rk }

/-- The planning phase: fold the repository list. -/
def planDestroy (regexStr : String) (dupF untrF : Bool) (backupFlag : String)
    (env : Env) (repos : List String) : DestroyAcc :=
  repos.foldl (planStep regexStr dupF untrF backupFlag env)
    { tr := [], allHooks := [], toDestroy := [], rk := 0 }

/-- The confirmation gate and the destroyer (main.go:705-721):
generate the 8-character pass phrase, prompt, and compare the
operator's line after `strings.TrimSpace(strings.ToUpper(input))`;
on a match run `destroyWebHooks` (a non-nil aggregate error is passed
to `printError`, which exits); on a mismatch abort normally. -/
def confirmAndDestroy (r : Nat → Nat) (t : String) (ok : String → Bool)
    (urls : List String) : List Event × Outcome :=
  let pass := generatePassPhrase r 8
  let input := goTrimSpace (goToUpper t)
  if input = pass then
    let run := destroyWebHooksRun ok urls ""
    (Event.confirmPrompt :: run.1,
     match run.2 with
     | some _ => Outcome.fatal
     | none => Outcome.okDestroyed)
  else ([Event.confirmPrompt], Outcome.okAborted)

/-- Embedding of `executeDestroy` (main.go:564): validate the types
flag (`printError` exits on failure, before any request), plan over
all repositories, return normally when nothing is to be destroyed
(before the backup), otherwise back up when a path is configured
(`printError` exits on a write failure, before the gate), then run the
confirmation gate and the destroyer.  The `listF` flag only prints the
pre-confirmation listing and changes no state. -/
def executeDestroy (typesFlag : String) (dupF untrF listF : Bool)
    (backupFlag : String) (repos : List String) (env : Env) :
    List Event × Outcome :=
  match (validateTypesFlag typesFlag).2 with
  | some _ => ([], Outcome.fatal)
  | none =>
    let regexStr := convertTypesToRegex (validateTypesFlag typesFlag).1
    let acc := planDestroy regexStr dupF untrF backupFlag env repos
    if acc.toDestroy.length = 0 then (acc.tr, Outcome.okNoHooks)
    else
      if backupFlag ≠ "" then
        if env.backupOK then
          let rest := confirmAndDestroy env.rand env.confirmInput env.deleteOK acc.toDestroy
          (acc.tr ++ [Event.backupWrite backupFlag] ++ rest.1, rest.2)
        else (acc.tr ++ [Event.backupWrite backupFlag], Outcome.fatal)
      else
        let rest := confirmAndDestroy env.rand env.confirmInput env.deleteOK acc.toDestroy
        (acc.tr ++ rest.1, rest.2)

/-!
## Specification-side predicates

The following definitions transcribe the *words of the specification*
(not the source); they exist to be compared with the source-derived
definitions above.
-/

/-- Spec wording (claims C4/C5): is `c` an `x`, case-insensitively? -/
def isXc (c : Char) : Bool := c == 'x' || c == 'X'

/-- Spec wording (claim C5): three characters of one of the shapes
`\d\d\d`, `\dxx`, `\d\dx` (`x` case-insensitive). -/
def specShape3 (a b c : Char) : Bool :=
  (asciiIsDigit a && (asciiIsDigit b && asciiIsDigit c)) ||
    ((asciiIsDigit a && (isXc b && isXc c)) ||
      (asciiIsDigit a && (asciiIsDigit b && isXc c)))

/-- Does the character list start with one of the three shapes? -/
def specShape3Head : List Char → Bool
  | a :: b :: c :: _ => specShape3 a b c
  | _ => false

/-- Spec wording (claim C5, amended): the token contains a
three-character substring of one of the shapes. -/
def specContainsShape (t : String) : Bool :=
  t.data.tails.any specShape3Head

/-- Spec wording (claim C5, as stated): the token is *exactly* of one
of the shapes `\d{3}`, `\dXX` or `\dX` (case-insensitive). -/
def specExactShape (t : String) : Bool :=
  match t.data with
  | [a, b, c] =>
    (asciiIsDigit a && asciiIsDigit b && asciiIsDigit c) ||
      (asciiIsDigit a && isXc b && isXc c)
  | [a, b] => asciiIsDigit a && isXc b
  | _ => false

/-- Spec wording (claim C4): one pattern position, `X` read as a
single-digit wildcard, every other character as itself. -/
def wCharMatch (p c : Char) : Bool :=
  if p = 'X' then asciiIsDigit c else p == c

/-- Spec wording (claim C4): the pattern matches a prefix of the
character list, position by position. -/
def wSeqAt : List Char → List Char → Bool
  | [], _ => true
  | _ :: _, [] => false
  | p :: ps, c :: cs => wCharMatch p c && wSeqAt ps cs

/-- Spec wording (claim C4, as stated): the pattern equals the code
digit-for-digit — same length, every position equal. -/
def wSeqEq : List Char → List Char → Bool
  | [], [] => true
  | p :: ps, c :: cs => wCharMatch p c && wSeqEq ps cs
  | _, _ => false

/-- Spec wording (claim C4, as stated): some pattern of the set equals
the code digit-for-digit. -/
def specMatchesExact (types : List String) (code : String) : Bool :=
  types.any (fun t => wSeqEq t.data code.data)

/-- A three-character type token over digits and (uppercase) `X` —
the form of every token of a validated, uppercased pattern set. -/
def shapedTok (t : String) : Bool :=
  match t.data with
  | [a, b, c] =>
    asciiIsDigit a && (asciiIsDigit b || b == 'X') && (asciiIsDigit c || c == 'X')
  | _ => false

/-!
## Concrete fixtures for the end-to-end claims

Small closed environments used to evaluate the embedded pipeline at
explicit inputs.
-/

/-- C2, scenario 1: first webhook — non-empty config URL shared with
the second one. -/
def c2Hook1 : WebHook :=
  { id := 1, url := "u1", name := "w1",
    configURL := "https://t", lastResponseCode := 200 }

/-- C2, scenario 1: second webhook, same config URL. -/
def c2Hook2 : WebHook :=
  { id := 2, url := "u2", name := "w2",
    configURL := "https://t", lastResponseCode := 200 }

/-- C2: environment whose operator answers `n` (destroy no
duplicates) at the resolver prompt. -/
def c2EnvNone : Env :=
  { fetch := fun _ => Except.ok [c2Hook1, c2Hook2],
    deleteOK := fun _ => true, backupOK := true,
    resolve := fun _ => "n", confirmInput := "x", rand := fun _ => 0 }

/-- C2: environment whose operator selects both duplicates (`0,1`)
and then confirms with the exact pass phrase (`rand ≡ 0` generates
`AAAAAAAA`). -/
def c2EnvBoth : Env :=
  { fetch := fun _ => Except.ok [c2Hook1, c2Hook2],
    deleteOK := fun _ => true, backupOK := true,
    resolve := fun _ => "0,1", confirmInput := "AAAAAAAA", rand := fun _ => 0 }

/-- C3: one webhook whose last code 404 matches the pattern `404`. -/
def c3Hook : WebHook :=
  { id := 3, url := "u", name := "w", configURL := "", lastResponseCode := 404 }

/-- C3: environment returning `c3Hook` for every repository. -/
def c3Env : Env :=
  { fetch := fun _ => Except.ok [c3Hook],
    deleteOK := fun _ => true, backupOK := true,
    resolve := fun _ => "n", confirmInput := "x", rand := fun _ => 0 }

/-- C9: one webhook whose last code 404 matches the pattern `404`. -/
def c9Hook : WebHook :=
  { id := 9, url := "u9", name := "w9", configURL := "", lastResponseCode := 404 }

/-- C9: environment for a two-repository run whose operator aborts at
the confirmation gate. -/
def c9Env : Env :=
  { fetch := fun _ => Except.ok [c9Hook],
    deleteOK := fun _ => true, backupOK := true,
    resolve := fun _ => "n", confirmInput := "x", rand := fun _ => 0 }

/-- C7 witness: environment whose backup write fails while one hook
matches the destroy pattern. -/
def c7Env : Env :=
  { fetch := fun _ => Except.ok
      [{ id := 7, url := "u7", name := "w7",
         configURL := "", lastResponseCode := 404 }],
    deleteOK := fun _ => true, backupOK := false,
    resolve := fun _ => "n", confirmInput := "x", rand := fun _ => 0 }

/-- C10 witness: environment whose only repository has no hooks. -/
def c10Env : Env :=
  { fetch := fun _ => Except.ok [],
    deleteOK := fun _ => true, backupOK := true,
    resolve := fun _ => "n", confirmInput := "x", rand := fun _ => 0 }

/-- C6 witness: two webhooks sharing a non-empty config URL. -/
def c6Hook1 : WebHook :=
  { id := 61, url := "v1", name := "d1",
    configURL := "https://dup", lastResponseCode := 200 }

/-- C6 witness: second webhook with the same config URL. -/
def c6Hook2 : WebHook :=
  { id := 62, url := "v2", name := "d2",
    configURL := "https://dup", lastResponseCode := 200 }

/-!
## Claim C1 — the destroyer stops at the first failure

The claim (spec §4.7): a per-endpoint failure is recorded and
execution *continues* to the remaining endpoints; a single aggregate
error listing *every* failing endpoint is returned only after all
endpoints have been attempted.  The source (main.go:413-425) checks
`errorString != ""` *inside* the loop, so the first failure returns
immediately; the accumulating `+=` and the `"- "` bullet prefix of the
message show the aggregation the spec describes was the intent.
-/

/-- C1: running the embedded destroyer on the endpoints `["a", "b"]`
where the delete of `"a"` fails issues only the one delete request for
`"a"` and returns an error naming only `"a"` — endpoint `"b"` is never
attempted, contradicting the continue-and-aggregate behaviour the
claim (and the source's own accumulator) intend. -/
theorem destroyer_stops_at_first_failure :
    destroyWebHooksRun (fun u => u == "b") ["a", "b"] "" =
      ([Event.deleteReq "a"],
       some "- Error deleting web hook a : Encountered error deleting a") := by
  decide

/-!
## Claim C2 — duplicates are destroyed only on operator selection

The claim: with duplicate-inclusion enabled every member of a
duplicate cluster is marked for destruction.  In the source the
destroy test (main.go:657) has no duplicates clause; cluster members
are marked only when the operator selects them in `duplicateDiff`
(main.go:538-540).
-/

/-- C2 counterexample: scenario 1 (one repository, two webhooks with
the same non-empty config URL, destroy mode with duplicates enabled,
pattern `none`) with the legal operator answer `n`: both wrappers are
marked duplicate, yet the run finds no hooks to destroy — the Destroy
Set is empty, contradicting the claim. -/
theorem duplicates_not_destroyed_without_selection :
    executeDestroy "none" true false false "" ["r"] c2EnvNone =
      ([Event.fetch "r", Event.resolverPrompt], Outcome.okNoHooks) ∧
    (repoClassify "N/A" true false (fun _ => "n") 0 [c2Hook1, c2Hook2]).dup 0 = true ∧
    (repoClassify "N/A" true false (fun _ => "n") 0 [c2Hook1, c2Hook2]).dup 1 = true := by
  decide

/-- C2 amended: in scenario 1 a duplicate-cluster record enters the
Destroy Set exactly when the operator selects it at the resolver
prompt; with the answer `0,1` both deletion endpoints enter the
Destroy Set, and the confirmed run deletes both. -/
theorem duplicates_destroyed_when_selected :
    (planDestroy "N/A" true false "" c2EnvBoth ["r"]).toDestroy = ["u1", "u2"] ∧
    executeDestroy "none" true false false "" ["r"] c2EnvBoth =
      ([Event.fetch "r", Event.resolverPrompt, Event.confirmPrompt,
        Event.deleteReq "u1", Event.deleteReq "u2"], Outcome.okDestroyed) := by
  decide

/-!
## Claim C9 — no inter-repository delay is performed

The claim: a fixed 50 ms delay is observed between consecutively
processed repositories.  The source declares the constant
`requestDelay` (main.go:24) but contains no `time.Sleep` call at all;
the repository loop (main.go:598-680) performs no pacing step.
-/

/-- C9 counterexample: the complete trace of a two-repository destroy
run — two consecutive fetches with no delay event between them (or
anywhere else). -/
theorem no_delay_between_repositories :
    executeDestroy "404" false false false "" ["a", "b"] c9Env =
      ([Event.fetch "a", Event.fetch "b", Event.confirmPrompt],
       Outcome.okAborted) ∧
    (executeDestroy "404" false false false "" ["a", "b"] c9Env).1.filter
      isSleepEv = [] := by
  decide

/-!
## Claim C4 — the destroy match is a substring match

The claim: the destroy-match predicate holds iff some pattern, with
`X` as single-digit wildcard, equals the code digit-for-digit (same
length, every position equal).  Go's `MatchString` is unanchored, so
`typesRegex.MatchString(Code)` succeeds whenever some pattern matches
any contiguous substring of the code.
-/

/-- C4 counterexample: with the validated pattern set of the flag
`404` and the code string `4040`, the source's match succeeds (the
pattern matches the substring `404`) although no pattern equals the
code digit-for-digit. -/
theorem destroy_match_not_whole_string :
    destroyMatch (validateTypesFlag "404").1 "4040" = true ∧
    specMatchesExact (validateTypesFlag "404").1 "4040" = false := by
  decide

/-!
## Claim C5 — validation accepts containment, not exact shapes

The claim: validation errors exactly when some token is not exactly of
one of the shapes `\d{3}`, `\dXX` or `\dX` (case-insensitive).  The
compiled pattern is `\d{3}|\d[xX][xX]|\d\d[xX]` — its third
alternative is `\d\dX`, not `\dX` — and `MatchString` is a substring
search, so a token passes whenever it merely *contains* a shape.
-/

/-- C5 counterexample: the token `4X` is exactly of the claimed shape
`\dX` and yet is rejected, while the token `x123x` is not exactly of
any claimed shape and yet is accepted. -/
theorem validation_rejects_dX_and_accepts_containment :
    (validateTypesFlag "4X").2.isSome = true ∧
    specExactShape "4X" = true ∧
    (validateTypesFlag "x123x").2.isSome = false ∧
    specExactShape "x123x" = false := by
  decide

/-!
## Claim C3 — the Destroy Set is not deduplicated

The claim: inserting an endpoint already present leaves the Destroy
Set unchanged.  The source defines `uniqueAppend` (main.go:375) with
exactly that behaviour but never calls it; `executeDestroy`
accumulates `hooksToDestroy` with a plain `append` (main.go:671), so
an endpoint repeats when the repository list repeats a repository.
Within one repository each endpoint occurs at most once, because the
`hooksMap` is keyed by the endpoint URL.
-/

/-- The `hooksMap` values have pairwise distinct URLs (they are the
values of a Go map keyed by `hook.URL`). -/
theorem buildHooksMap_urls_nodup (hooks : List WebHook) :
    ((buildHooksMap hooks).map WebHook.url).Nodup := by
  suffices h : ∀ (hs : List WebHook) (acc : List WebHook),
      (acc.map WebHook.url).Nodup →
      ((hs.foldl (fun acc h =>
          if acc.any (fun h2 => h2.url == h.url)
          then acc.map (fun h2 => if h2.url == h.url then h else h2)
          else acc ++ [h]) acc).map WebHook.url).Nodup by
    exact h hooks [] (by simp)
  intro hs
  induction hs with
  | nil => intro acc hacc; simpa using hacc
  | cons h rest ih =>
    intro acc hacc
    simp only [List.foldl_cons]
    apply ih
    by_cases hmem : acc.any (fun h2 => h2.url == h.url) = true
    · rw [if_pos hmem]
      have heq : (acc.map (fun h2 => if h2.url == h.url then h else h2)).map
          WebHook.url = acc.map WebHook.url := by
        rw [List.map_map]
        apply List.map_congr_left
        intro x _
        by_cases hx : x.url == h.url
        · simp only [Function.comp_apply, if_pos hx]
          exact (eq_of_beq hx).symm
        · simp only [Function.comp_apply, if_neg hx]
      rw [heq]; exact hacc
    · rw [if_neg hmem]
      have hnot : h.url ∉ acc.map WebHook.url := by
        intro hc
        rcases List.mem_map.mp hc with ⟨x, hx, hxe⟩
        exact hmem (List.any_eq_true.mpr ⟨x, hx, by simp [hxe]⟩)
      simp [List.nodup_append, hacc, hnot]

/-- The endpoints one repository contributes to the Destroy Set are
pairwise distinct, whatever the destroy flags are. -/
theorem repoDestroyURLs_nodup (hooks : List WebHook) (des : Nat → Bool) :
    (repoDestroyURLs (buildHooksMap hooks) des).Nodup := by
  have hnd := buildHooksMap_urls_nodup hooks
  unfold repoDestroyURLs
  apply List.Nodup.map_on
  · intro i hi j hj hurl
    have hi' : i < (buildHooksMap hooks).length :=
      List.mem_range.mp (List.mem_of_mem_filter hi)
    have hj' : j < (buildHooksMap hooks).length :=
      List.mem_range.mp (List.mem_of_mem_filter hj)
    have hgi : hookAt (buildHooksMap hooks) i = (buildHooksMap hooks)[i] :=
      List.getD_eq_getElem _ _ hi'
    have hgj : hookAt (buildHooksMap hooks) j = (buildHooksMap hooks)[j] :=
      List.getD_eq_getElem _ _ hj'
    have hi2 : i < ((buildHooksMap hooks).map WebHook.url).length := by
      simpa using hi'
    have hj2 : j < ((buildHooksMap hooks).map WebHook.url).length := by
      simpa using hj'
    have hmi : ((buildHooksMap hooks).map WebHook.url)[i] =
        (buildHooksMap hooks)[i].url := List.getElem_map _
    have hmj : ((buildHooksMap hooks).map WebHook.url)[j] =
        (buildHooksMap hooks)[j].url := List.getElem_map _
    apply (List.Nodup.getElem_inj_iff hnd).mp
    rw [hmi, hmj, ← hgi, ← hgj]
    exact hurl
  · exact (List.nodup_range _).filter _

/-- C3 counterexample: a repository list naming the same repository
twice contributes the same deletion endpoint twice — the accumulated
Destroy Set is `["u", "u"]`, which is not duplicate-free. -/
theorem destroy_set_repeats_endpoint :
    (planDestroy "404" false false "" c3Env ["r", "r"]).toDestroy = ["u", "u"] ∧
    ¬ (planDestroy "404" false false "" c3Env ["r", "r"]).toDestroy.Nodup := by
  decide

/-- C3 amended: the helper `uniqueAppend` is idempotent — inserting a
present endpoint leaves the array unchanged — but it is unused: the
run accumulates the Destroy Set with a plain append, so endpoints can
repeat across repeated repository-list entries, while within a single
repository each endpoint occurs at most once (the hook map is keyed by
the endpoint URL). -/
theorem unique_append_idempotent_and_per_repo_unique :
    (∀ (l : List String) (a : String), a ∈ l → uniqueAppend l a = l) ∧
    (∀ (hooks : List WebHook) (des : Nat → Bool),
      (repoDestroyURLs (buildHooksMap hooks) des).Nodup) := by
  constructor
  · intro l a ha
    unfold uniqueAppend
    rw [if_pos (List.elem_iff.mpr ha)]
  · exact repoDestroyURLs_nodup

/-- C3 witness: the amended theorem applied at a present endpoint and
at a concrete repository. -/
theorem unique_append_idempotent_witness :
    uniqueAppend ["a", "b"] "b" = ["a", "b"] ∧
    (repoDestroyURLs (buildHooksMap [c3Hook]) (fun _ => true)).Nodup :=
  ⟨unique_append_idempotent_and_per_repo_unique.1 ["a", "b"] "b" (by decide),
   unique_append_idempotent_and_per_repo_unique.2 [c3Hook] (fun _ => true)⟩

/-!
## Claim C8 — the confirmation gate

The pass phrase consists of characters `65 + rand.Intn(25)`, i.e.
`A`..`Y`, so it is its own uppercase form; the gate compares
`strings.TrimSpace(strings.ToUpper(input))` with it (main.go:711-713),
which is exactly the claimed `trim(upper(t)) == upper(T)`.
-/

/-- Characters `65 + m` with `m < 25` are unchanged by uppercasing. -/
theorem asciiUpper_passChar : ∀ m, m < 25 →
    asciiUpper (Char.ofNat (65 + m)) = Char.ofNat (65 + m) := by decide

/-- The generated pass phrase is its own uppercase form. -/
theorem goToUpper_generatePassPhrase (r : Nat → Nat) (n : Nat) :
    goToUpper (generatePassPhrase r n) = generatePassPhrase r n := by
  unfold goToUpper generatePassPhrase
  congr 1
  rw [show (String.mk ((List.range n).map
      fun i => Char.ofNat (65 + r i % 25))).data =
        (List.range n).map (fun i => Char.ofNat (65 + r i % 25)) from rfl]
  rw [List.map_map]
  apply List.map_congr_left
  intro i _
  exact asciiUpper_passChar _ (Nat.mod_lt _ (by norm_num))

/-- The trace of the destroyer on a non-empty endpoint list starts
with the delete request for the first endpoint. -/
theorem destroyWebHooksRun_cons (ok : String → Bool) (u : String)
    (rest : List String) (s : String) :
    ∃ l, (destroyWebHooksRun ok (u :: rest) s).1 = Event.deleteReq u :: l := by
  rw [destroyWebHooksRun]
  dsimp only
  split
  · exact ⟨_, rfl⟩
  · exact ⟨_, rfl⟩

/-- C8: with generated token `T` and operator input `t`, the gate
issues delete requests iff `trim(upper(t)) = upper(T)`; the token has
8 characters; and on any other input the run performs no delete
request and ends successfully with the aborted outcome. -/
theorem confirmation_gate_exact_match (r : Nat → Nat) (t : String)
    (ok : String → Bool) (urls : List String) (hne : urls ≠ []) :
    (generatePassPhrase r 8).length = 8 ∧
    ((∃ u, Event.deleteReq u ∈ (confirmAndDestroy r t ok urls).1) ↔
      goTrimSpace (goToUpper t) = goToUpper (generatePassPhrase r 8)) ∧
    (goTrimSpace (goToUpper t) ≠ goToUpper (generatePassPhrase r 8) →
      confirmAndDestroy r t ok urls = ([Event.confirmPrompt], Outcome.okAborted)) := by
  rw [goToUpper_generatePassPhrase]
  refine ⟨?_, ?_, ?_⟩
  · simp [generatePassPhrase, String.length]
  · unfold confirmAndDestroy
    by_cases hc : goTrimSpace (goToUpper t) = generatePassPhrase r 8
    · rw [if_pos hc]
      constructor
      · intro _; exact hc
      · intro _
        rcases urls with _ | ⟨u, rest⟩
        · exact absurd rfl hne
        · rcases destroyWebHooksRun_cons ok u rest "" with ⟨l, hl⟩
          exact ⟨u, by dsimp only; rw [hl]; simp⟩
    · rw [if_neg hc]
      constructor
      · rintro ⟨u, hu⟩
        simp at hu
      · intro h; exact absurd h hc
  · intro h
    unfold confirmAndDestroy
    rw [if_neg h]

/-- C8 witness: the gate theorem applied at a concrete mismatching
input, a concrete random stream and one endpoint. -/
theorem confirmation_gate_witness :
    (generatePassPhrase (fun _ => 0) 8).length = 8 ∧
    ((∃ u, Event.deleteReq u ∈
        (confirmAndDestroy (fun _ => 0) "x" (fun _ => true) ["u"]).1) ↔
      goTrimSpace (goToUpper "x") = goToUpper (generatePassPhrase (fun _ => 0) 8)) ∧
    (goTrimSpace (goToUpper "x") ≠ goToUpper (generatePassPhrase (fun _ => 0) 8) →
      confirmAndDestroy (fun _ => 0) "x" (fun _ => true) ["u"] =
        ([Event.confirmPrompt], Outcome.okAborted)) :=
  confirmation_gate_exact_match (fun _ => 0) "x" (fun _ => true) ["u"] (by decide)

/-!
## Trace shape of the planning phase

The planning loop only ever emits fetch and resolver-prompt events;
backup writes, the confirmation prompt and delete requests happen only
in the tail of `executeDestroy`.  These lemmas drive the temporal
claims C7, C9 and C10.
-/

/-- One hook-loop step leaves the event list unchanged or appends one
resolver prompt. -/
theorem hookStep_tr (regexStr : String) (dupF untrF : Bool)
    (resolve : Nat → String) (ms : List WebHook) (st : RepoState) (i : Nat) :
    (hookStep regexStr dupF untrF resolve ms st i).tr = st.tr ∨
    (hookStep regexStr dupF untrF resolve ms st i).tr =
      st.tr ++ [Event.resolverPrompt] := by
  unfold hookStep
  dsimp only
  by_cases hc : ((clusterIdxs ms st.dup i).length > 1 && dupF) = true
  · rw [if_pos hc]; exact Or.inr rfl
  · rw [if_neg hc]; exact Or.inl rfl

/-- Events of the folded hook loop: inherited or resolver prompts. -/
theorem foldl_hookStep_tr (regexStr : String) (dupF untrF : Bool)
    (resolve : Nat → String) (ms : List WebHook) :
    ∀ (l : List Nat) (st : RepoState) (e : Event),
      e ∈ (l.foldl (hookStep regexStr dupF untrF resolve ms) st).tr →
      e ∈ st.tr ∨ e = Event.resolverPrompt := by
  intro l
  induction l with
  | nil => intro st e h; exact Or.inl h
  | cons i rest ih =>
    intro st e h
    rcases ih (hookStep regexStr dupF untrF resolve ms st i) e h with h' | h'
    · rcases hookStep_tr regexStr dupF untrF resolve ms st i with he | he
      · rw [he] at h'; exact Or.inl h'
      · rw [he] at h'
        rcases List.mem_append.mp h' with h'' | h''
        · exact Or.inl h''
        · simp at h''; exact Or.inr h''
    · exact Or.inr h'

/-- Events emitted while classifying one repository are exactly
resolver prompts. -/
theorem repoClassify_tr (regexStr : String) (dupF untrF : Bool)
    (resolve : Nat → String) (rk : Nat) (hooks : List WebHook) (e : Event) :
    e ∈ (repoClassify regexStr dupF untrF resolve rk hooks).tr →
    e = Event.resolverPrompt := by
  intro h
  unfold repoClassify at h
  rcases foldl_hookStep_tr regexStr dupF untrF resolve (buildHooksMap hooks) _ _ _ h with
    h' | h'
  · simp at h'
  · exact h'

/-- Events of one planning step: inherited, one fetch, or resolver
prompts. -/
theorem planStep_tr (regexStr : String) (dupF untrF : Bool)
    (backupFlag : String) (env : Env) (acc : DestroyAcc) (repo : String)
    (e : Event) :
    e ∈ (planStep regexStr dupF untrF backupFlag env acc repo).tr →
    e ∈ acc.tr ∨ e = Event.fetch repo ∨ e = Event.resolverPrompt := by
  intro h
  unfold planStep at h
  cases hf : env.fetch repo with
  | error msg =>
    rw [hf] at h
    dsimp only at h
    rcases List.mem_append.mp h with h' | h'
    · exact Or.inl h'
    · simp at h'; exact Or.inr (Or.inl h')
  | ok hooks =>
    rw [hf] at h
    dsimp only at h
    rcases List.mem_append.mp h with h' | h'
    · rcases List.mem_append.mp h' with h'' | h''
      · exact Or.inl h''
      · simp at h''; exact Or.inr (Or.inl h'')
    · exact Or.inr (Or.inr (repoClassify_tr _ _ _ _ _ _ _ h'))

/-- Every event of the planning phase is a fetch or a resolver
prompt. -/
theorem planDestroy_tr (regexStr : String) (dupF untrF : Bool)
    (backupFlag : String) (env : Env) (repos : List String) (e : Event) :
    e ∈ (planDestroy regexStr dupF untrF backupFlag env repos).tr →
    (∃ rp, e = Event.fetch rp) ∨ e = Event.resolverPrompt := by
  suffices h : ∀ (rs : List String) (acc : DestroyAcc),
      e ∈ (rs.foldl (planStep regexStr dupF untrF backupFlag env) acc).tr →
      e ∈ acc.tr ∨ (∃ rp, e = Event.fetch rp) ∨ e = Event.resolverPrompt by
    intro hm
    rcases h repos { tr := [], allHooks := [], toDestroy := [], rk := 0 } hm with
      h' | h'
    · simp at h'
    · exact h'
  intro rs
  induction rs with
  | nil => intro acc h; exact Or.inl h
  | cons repo rest ih =>
    intro acc h
    rcases ih (planStep regexStr dupF untrF backupFlag env acc repo) h with h' | h'
    · rcases planStep_tr regexStr dupF untrF backupFlag env acc repo e h' with
        h'' | h'' | h''
      · exact Or.inl h''
      · exact Or.inr (Or.inl ⟨repo, h''⟩)
      · exact Or.inr (Or.inr h'')
    · exact Or.inr h'

/-- Every event of the destroyer is a delete request. -/
theorem destroyWebHooksRun_tr (ok : String → Bool) :
    ∀ (urls : List String) (s : String) (e : Event),
      e ∈ (destroyWebHooksRun ok urls s).1 → ∃ u, e = Event.deleteReq u := by
  intro urls
  induction urls with
  | nil => intro s e h; simp [destroyWebHooksRun] at h
  | cons u rest ih =>
    intro s e h
    rw [destroyWebHooksRun] at h
    dsimp only at h
    split at h
    · rcases List.mem_cons.mp h with h' | h'
      · exact ⟨u, h'⟩
      · exact ih _ e h'
    · simp at h; exact ⟨u, h⟩

/-- Every event of the gate-and-destroy tail is the confirmation
prompt or a delete request. -/
theorem confirmAndDestroy_tr (r : Nat → Nat) (t : String) (ok : String → Bool)
    (urls : List String) (e : Event) :
    e ∈ (confirmAndDestroy r t ok urls).1 →
    e = Event.confirmPrompt ∨ ∃ u, e = Event.deleteReq u := by
  intro h
  unfold confirmAndDestroy at h
  dsimp only at h
  split at h
  · rcases List.mem_cons.mp h with h' | h'
    · exact Or.inl h'
    · exact Or.inr (destroyWebHooksRun_tr ok urls "" e h')
  · simp at h; exact Or.inl h

/-- Every event a destroy run can emit: a fetch, a resolver prompt, a
backup write of the configured path, the confirmation prompt or a
delete request — in particular, never a sleep. -/
theorem executeDestroy_tr (flag : String) (dupF untrF listF : Bool)
    (backupFlag : String) (repos : List String) (env : Env) (e : Event) :
    e ∈ (executeDestroy flag dupF untrF listF backupFlag repos env).1 →
    (∃ rp, e = Event.fetch rp) ∨ e = Event.resolverPrompt ∨
    e = Event.backupWrite backupFlag ∨ e = Event.confirmPrompt ∨
    ∃ u, e = Event.deleteReq u := by
  intro h
  unfold executeDestroy at h
  split at h
  · simp at h
  · dsimp only at h
    split at h
    · rcases planDestroy_tr _ _ _ _ _ _ _ h with h' | h'
      · exact Or.inl h'
      · exact Or.inr (Or.inl h')
    · split at h
      · split at h
        · rcases List.mem_append.mp h with h' | h'
          · rcases List.mem_append.mp h' with h'' | h''
            · rcases planDestroy_tr _ _ _ _ _ _ _ h'' with h3 | h3
              · exact Or.inl h3
              · exact Or.inr (Or.inl h3)
            · simp at h''
              exact Or.inr (Or.inr (Or.inl h''))
          · rcases confirmAndDestroy_tr _ _ _ _ _ h' with h'' | h''
            · exact Or.inr (Or.inr (Or.inr (Or.inl h'')))
            · exact Or.inr (Or.inr (Or.inr (Or.inr h'')))
        · rcases List.mem_append.mp h with h' | h'
          · rcases planDestroy_tr _ _ _ _ _ _ _ h' with h'' | h''
            · exact Or.inl h''
            · exact Or.inr (Or.inl h'')
          · simp at h'
            exact Or.inr (Or.inr (Or.inl h'))
      · rcases List.mem_append.mp h with h' | h'
        · rcases planDestroy_tr _ _ _ _ _ _ _ h' with h'' | h''
          · exact Or.inl h''
          · exact Or.inr (Or.inl h'')
        · rcases confirmAndDestroy_tr _ _ _ _ _ h' with h'' | h''
          · exact Or.inr (Or.inr (Or.inr (Or.inl h'')))
          · exact Or.inr (Or.inr (Or.inr (Or.inr h'')))

/-- Shape of a destroy run when the backup path is configured and the
write would fail: a fatal validation stop, a no-hooks stop before the
backup, or a fatal stop right after the failed backup write — the last
trace event of the planning events plus the one backup write. -/
theorem executeDestroy_backup_fail_cases (flag : String)
    (dupF untrF listF : Bool) (backupFlag : String) (repos : List String)
    (env : Env) (hb : backupFlag ≠ "") (hfail : env.backupOK = false) :
    executeDestroy flag dupF untrF listF backupFlag repos env =
      ([], Outcome.fatal) ∨
    (∃ tr, executeDestroy flag dupF untrF listF backupFlag repos env =
        (tr, Outcome.okNoHooks) ∧
      ∀ e ∈ tr, (∃ rp, e = Event.fetch rp) ∨ e = Event.resolverPrompt) ∨
    (∃ tr, executeDestroy flag dupF untrF listF backupFlag repos env =
        (tr ++ [Event.backupWrite backupFlag], Outcome.fatal) ∧
      ∀ e ∈ tr, (∃ rp, e = Event.fetch rp) ∨ e = Event.resolverPrompt) := by
  unfold executeDestroy
  split
  · exact Or.inl rfl
  · dsimp only
    split
    · exact Or.inr (Or.inl ⟨_, rfl, fun e he => planDestroy_tr _ _ _ _ _ _ _ he⟩)
    · rw [hfail]
      rw [if_neg (by simp)]
      exact Or.inr (Or.inr ⟨_, rfl, fun e he => planDestroy_tr _ _ _ _ _ _ _ he⟩)

/-- C7: when a backup path is configured and the backup write fails,
no delete request occurs in the whole run, and whenever the backup
write was actually attempted the run ends with the fatal (non-zero)
exit. -/
theorem backup_failure_stops_before_any_delete (flag : String)
    (dupF untrF listF : Bool) (backupFlag : String) (repos : List String)
    (env : Env) (hb : backupFlag ≠ "") (hfail : env.backupOK = false) :
    (∀ u, Event.deleteReq u ∉
      (executeDestroy flag dupF untrF listF backupFlag repos env).1) ∧
    (Event.backupWrite backupFlag ∈
        (executeDestroy flag dupF untrF listF backupFlag repos env).1 →
      (executeDestroy flag dupF untrF listF backupFlag repos env).2 =
        Outcome.fatal) := by
  rcases executeDestroy_backup_fail_cases flag dupF untrF listF backupFlag
      repos env hb hfail with h | ⟨tr, heq, hmem⟩ | ⟨tr, heq, hmem⟩
  · rw [h]
    exact ⟨fun u hu => by simp at hu, fun _ => rfl⟩
  · rw [heq]
    constructor
    · intro u hu
      rcases hmem _ hu with ⟨rp, h'⟩ | h' <;> simp at h'
    · intro hbw
      rcases hmem _ hbw with ⟨rp, h'⟩ | h' <;> simp at h'
  · rw [heq]
    constructor
    · intro u hu
      rcases List.mem_append.mp hu with h' | h'
      · rcases hmem _ h' with ⟨rp, h''⟩ | h'' <;> simp at h''
      · simp at h'
    · intro _; rfl

/-- C7 witness: the backup-failure theorem applied at a concrete
environment with a configured backup path and a failing write. -/
theorem backup_failure_witness :
    Event.deleteReq "u7" ∉
      (executeDestroy "404" false false false "b.json" ["r"] c7Env).1 ∧
    (Event.backupWrite "b.json" ∈
        (executeDestroy "404" false false false "b.json" ["r"] c7Env).1 →
      (executeDestroy "404" false false false "b.json" ["r"] c7Env).2 =
        Outcome.fatal) :=
  ⟨(backup_failure_stops_before_any_delete "404" false false false "b.json"
      ["r"] c7Env (by decide) rfl).1 "u7",
   (backup_failure_stops_before_any_delete "404" false false false "b.json"
      ["r"] c7Env (by decide) rfl).2⟩

/-- C10: when the Destroy Set is empty after processing all
repositories, the run returns successfully before the backup step —
the trace is the planning trace alone and contains no backup write,
whatever backup path is configured. -/
theorem empty_destroy_set_returns_before_backup (flag : String)
    (dupF untrF listF : Bool) (backupFlag : String) (repos : List String)
    (env : Env) (hv : (validateTypesFlag flag).2 = none)
    (hempty : (planDestroy (convertTypesToRegex (validateTypesFlag flag).1)
        dupF untrF backupFlag env repos).toDestroy = []) :
    executeDestroy flag dupF untrF listF backupFlag repos env =
      ((planDestroy (convertTypesToRegex (validateTypesFlag flag).1)
          dupF untrF backupFlag env repos).tr, Outcome.okNoHooks) ∧
    ∀ p, Event.backupWrite p ∉
      (executeDestroy flag dupF untrF listF backupFlag repos env).1 := by
  have heq : executeDestroy flag dupF untrF listF backupFlag repos env =
      ((planDestroy (convertTypesToRegex (validateTypesFlag flag).1)
          dupF untrF backupFlag env repos).tr, Outcome.okNoHooks) := by
    unfold executeDestroy
    rw [hv]
    dsimp only
    rw [if_pos (by rw [hempty]; rfl)]
  refine ⟨heq, ?_⟩
  intro p hp
  rw [heq] at hp
  rcases planDestroy_tr _ _ _ _ _ _ _ hp with ⟨rp, h'⟩ | h' <;> simp at h'

/-- C10 witness: the empty-destroy-set theorem applied to a run whose
repository has no hooks, with a backup path configured. -/
theorem empty_destroy_set_witness :
    executeDestroy "404" false false false "b.json" ["r"] c10Env =
      ((planDestroy (convertTypesToRegex (validateTypesFlag "404").1)
          false false "b.json" c10Env ["r"]).tr, Outcome.okNoHooks) ∧
    ∀ p, Event.backupWrite p ∉
      (executeDestroy "404" false false false "b.json" ["r"] c10Env).1 :=
  empty_destroy_set_returns_before_backup "404" false false false "b.json"
    ["r"] c10Env (by decide) (by decide)

/-- C9 amended: the source declares the 50 ms `requestDelay` constant
but never uses it — no execution of the destroy run performs any delay
step, between repositories or anywhere else. -/
theorem no_delay_is_ever_performed :
    (∀ (flag : String) (dupF untrF listF : Bool) (backupFlag : String)
        (repos : List String) (env : Env),
      (executeDestroy flag dupF untrF listF backupFlag repos env).1.filter
        isSleepEv = []) ∧
    requestDelayMs = 50 := by
  constructor
  · intro flag dupF untrF listF backupFlag repos env
    apply List.filter_eq_nil_iff.mpr
    intro e he
    rcases executeDestroy_tr flag dupF untrF listF backupFlag repos env e he with
      ⟨rp, rfl⟩ | rfl | rfl | rfl | ⟨u, rfl⟩ <;> simp [isSleepEv]
  · rfl

/-!
## Claim C6 — characterization of duplicate marking

The marking pass of `executeDestroy` (main.go:620-641) walks the map
once per hook; the first member of a cluster that is processed marks
the whole cluster, and already-marked hooks are skipped afterwards.
The resulting flags are exactly: marked iff some *other* hook of the
same repository has an equal, non-empty config URL.  The proof goes by
induction over the number of processed positions, with the invariant
that a hook is marked iff it belongs to a cluster one of whose members
has already been processed.
-/

/-- Unfolding of the inner-loop candidate test into propositions. -/
theorem dupCandidate_iff (ms : List WebHook) (d : Nat → Bool) (i j : Nat) :
    dupCandidate ms d i j = true ↔
      j ≠ i ∧ d j = false ∧ cfgAt ms i ≠ "" ∧ cfgAt ms j = cfgAt ms i := by
  simp only [dupCandidate, Bool.and_eq_true, Bool.not_eq_true', beq_iff_eq,
    beq_eq_false_iff_ne, ne_eq]
  tauto

/-- Membership in the collected cluster of the current hook. -/
theorem mem_clusterIdxs_iff (ms : List WebHook) (d : Nat → Bool) (i j : Nat) :
    j ∈ clusterIdxs ms d i ↔
      j = i ∨ (j < ms.length ∧ dupCandidate ms d i j = true) := by
  simp [clusterIdxs, List.mem_filter, List.mem_range]

/-- The collected cluster has a second member iff some position is a
candidate of the current hook. -/
theorem clusterIdxs_big_iff (ms : List WebHook) (d : Nat → Bool) (i : Nat) :
    (clusterIdxs ms d i).length > 1 ↔
      ∃ j, j < ms.length ∧ dupCandidate ms d i j = true := by
  unfold clusterIdxs
  simp only [List.length_cons]
  constructor
  · intro h
    have hpos : ((List.range ms.length).filter (dupCandidate ms d i)) ≠ [] := by
      intro hnil
      rw [hnil] at h
      simp at h
    rcases List.exists_mem_of_ne_nil _ hpos with ⟨j, hj⟩
    exact ⟨j, List.mem_range.mp (List.mem_of_mem_filter hj),
      List.of_mem_filter hj⟩
  · rintro ⟨j, hj, hc⟩
    have hmem : j ∈ (List.range ms.length).filter (dupCandidate ms d i) :=
      List.mem_filter.mpr ⟨List.mem_range.mpr hj, hc⟩
    have := List.length_pos.mpr (List.ne_nil_of_mem hmem)
    omega

/-- Unfolding of one marking step into propositions. -/
theorem markDupAt_true_iff (ms : List WebHook) (d : Nat → Bool) (i j : Nat) :
    markDupAt ms d i j = true ↔
      d j = true ∨
        ((clusterIdxs ms d i).length > 1 ∧ j ∈ clusterIdxs ms d i) := by
  unfold markDupAt
  by_cases h : (clusterIdxs ms d i).length > 1
  · rw [if_pos h]
    simp only [Bool.or_eq_true]
    constructor
    · rintro (hd | hc)
      · exact Or.inl hd
      · exact Or.inr ⟨h, by simpa [List.elem_iff] using hc⟩
    · rintro (hd | ⟨_, hc⟩)
      · exact Or.inl hd
      · exact Or.inr (by simpa [List.elem_iff] using hc)
  · rw [if_neg h]
    constructor
    · exact Or.inl
    · rintro (hd | ⟨hbig, _⟩)
      · exact hd
      · exact absurd hbig h

/-- Processing one more position applies one marking step. -/
theorem dupIter_succ (ms : List WebHook) (k : Nat) :
    dupIter ms (k + 1) = markDupAt ms (dupIter ms k) k := by
  unfold dupIter
  rw [show List.range (k + 1) = List.range k ++ [k] by
    simpa using List.range_succ (n := k)]
  rw [List.foldl_append]
  rfl

/-- The duplicate flags of the folded hook loop are those of the pure
marking pass: the resolver and the destroy test never touch them. -/
theorem foldl_hookStep_dup (regexStr : String) (dupF untrF : Bool)
    (resolve : Nat → String) (ms : List WebHook) :
    ∀ (l : List Nat) (st : RepoState),
      (l.foldl (hookStep regexStr dupF untrF resolve ms) st).dup =
        l.foldl (markDupAt ms) st.dup := by
  intro l
  induction l with
  | nil => intro st; rfl
  | cons i rest ih =>
    intro st
    simp only [List.foldl_cons]
    rw [ih]
    rw [show (hookStep regexStr dupF untrF resolve ms st i).dup =
      markDupAt ms st.dup i from rfl]

/-- The duplicate flags of one repository's classification. -/
theorem repoClassify_dup (regexStr : String) (dupF untrF : Bool)
    (resolve : Nat → String) (rk : Nat) (hooks : List WebHook) :
    (repoClassify regexStr dupF untrF resolve rk hooks).dup =
      dupIter (buildHooksMap hooks) (buildHooksMap hooks).length := by
  unfold repoClassify dupIter
  rw [foldl_hookStep_dup]

/-- Invariant of the marking pass: after the first `k` positions are
processed, a hook is marked iff it sits in a cluster (it has a
non-empty config URL shared with some other hook) one of whose members
is among the first `k` positions. -/
theorem dupIter_char (ms : List WebHook) :
    ∀ k, k ≤ ms.length → ∀ i,
      (dupIter ms k i = true ↔
        (i < ms.length ∧ cfgAt ms i ≠ "" ∧
         (∃ j, j < ms.length ∧ j ≠ i ∧ cfgAt ms j = cfgAt ms i) ∧
         (∃ m, m < k ∧ cfgAt ms m = cfgAt ms i))) := by
  intro k
  induction k with
  | zero =>
    intro _ i
    constructor
    · intro h
      simp [dupIter] at h
    · rintro ⟨_, _, _, m, hm, _⟩
      exact absurd hm (Nat.not_lt_zero m)
  | succ k ih =>
    intro hk i
    have hk' : k ≤ ms.length := Nat.le_of_succ_le hk
    have hkn : k < ms.length := hk
    rw [dupIter_succ, markDupAt_true_iff]
    by_cases hbig : (clusterIdxs ms (dupIter ms k) k).length > 1
    · rcases (clusterIdxs_big_iff ms (dupIter ms k) k).mp hbig with ⟨j0, hj0n, hj0c⟩
      rcases (dupCandidate_iff ms (dupIter ms k) k j0).mp hj0c with
        ⟨hj0ne, _, hcfgk, hj0cfg⟩
      constructor
      · rintro (hdi | ⟨_, hmem⟩)
        · rcases (ih hk' i).mp hdi with ⟨h1, h2, h3, m, hm, hmc⟩
          exact ⟨h1, h2, h3, m, Nat.lt_succ_of_lt hm, hmc⟩
        · rcases (mem_clusterIdxs_iff ms (dupIter ms k) k i).mp hmem with
            rfl | ⟨hin, hic⟩
          · exact ⟨hkn, hcfgk, ⟨j0, hj0n, hj0ne, hj0cfg⟩, i,
              Nat.lt_succ_self i, rfl⟩
          · rcases (dupCandidate_iff ms (dupIter ms k) k i).mp hic with
              ⟨hine, _, hcfgk2, hicfg⟩
            exact ⟨hin, by rw [hicfg]; exact hcfgk2,
              ⟨k, hkn, fun he => hine he.symm, hicfg.symm⟩,
              k, Nat.lt_succ_self k, hicfg.symm⟩
      · rintro ⟨hin, hcfg, ⟨j, hjn, hjne, hjcfg⟩, m, hm, hmc⟩
        rcases Nat.lt_succ_iff_lt_or_eq.mp hm with hmk | rfl
        · exact Or.inl ((ih hk' i).mpr ⟨hin, hcfg, ⟨j, hjn, hjne, hjcfg⟩,
            m, hmk, hmc⟩)
        · by_cases hik : i = m
          · exact Or.inr ⟨hbig, (mem_clusterIdxs_iff ms (dupIter ms m) m i).mpr
              (Or.inl hik)⟩
          · by_cases hdi : dupIter ms m i = true
            · exact Or.inl hdi
            · have hdif : dupIter ms m i = false := by
                cases hb : dupIter ms m i
                · rfl
                · exact absurd hb hdi
              refine Or.inr ⟨hbig,
                (mem_clusterIdxs_iff ms (dupIter ms m) m i).mpr
                  (Or.inr ⟨hin, (dupCandidate_iff ms (dupIter ms m) m i).mpr
                    ⟨hik, hdif, ?_, hmc.symm⟩⟩)⟩
              rw [hmc]; exact hcfg
    · constructor
      · rintro (hdi | ⟨hbig', _⟩)
        · rcases (ih hk' i).mp hdi with ⟨h1, h2, h3, m, hm, hmc⟩
          exact ⟨h1, h2, h3, m, Nat.lt_succ_of_lt hm, hmc⟩
        · exact absurd hbig' hbig
      · rintro ⟨hin, hcfg, ⟨j, hjn, hjne, hjcfg⟩, m, hm, hmc⟩
        rcases Nat.lt_succ_iff_lt_or_eq.mp hm with hmk | rfl
        · exact Or.inl ((ih hk' i).mpr ⟨hin, hcfg, ⟨j, hjn, hjne, hjcfg⟩,
            m, hmk, hmc⟩)
        · have hnone : ∀ j2, j2 < ms.length →
              dupCandidate ms (dupIter ms m) m j2 = false := by
            intro j2 hj2
            cases hcb : dupCandidate ms (dupIter ms m) m j2
            · rfl
            · exact absurd ((clusterIdxs_big_iff ms (dupIter ms m) m).mpr
                ⟨j2, hj2, hcb⟩) hbig
          by_cases hik : i = m
          · subst hik
            have hdj : dupIter ms i j = true := by
              by_contra hdj'
              have hdjf : dupIter ms i j = false := by
                cases hb : dupIter ms i j
                · rfl
                · exact absurd hb hdj'
              have hcand : dupCandidate ms (dupIter ms i) i j = true :=
                (dupCandidate_iff ms (dupIter ms i) i j).mpr
                  ⟨hjne, hdjf, hcfg, hjcfg⟩
              rw [hnone j hjn] at hcand
              exact absurd hcand (by simp)
            rcases (ih hk' j).mp hdj with ⟨_, _, _, m', hm', hm'c⟩
            exact Or.inl ((ih hk' i).mpr ⟨hin, hcfg, ⟨j, hjn, hjne, hjcfg⟩,
              m', hm', by rw [hm'c, hjcfg]⟩)
          · have hdi : dupIter ms m i = true := by
              by_contra hdi'
              have hdif : dupIter ms m i = false := by
                cases hb : dupIter ms m i
                · rfl
                · exact absurd hb hdi'
              have hcand : dupCandidate ms (dupIter ms m) m i = true :=
                (dupCandidate_iff ms (dupIter ms m) m i).mpr
                  ⟨hik, hdif, by rw [hmc]; exact hcfg, hmc.symm⟩
              rw [hnone i hin] at hcand
              exact absurd hcand (by simp)
            exact Or.inl hdi

/-- C6: After classifying one repository's fetched hooks, the wrapper
at map position `i` is marked duplicate iff some other wrapper of the
same repository has an equal, non-empty config URL; in particular a
wrapper with an empty config URL is never marked, whatever the other
records are, and marking is symmetric and cluster-complete. -/
theorem duplicate_marking_characterization (regexStr : String)
    (dupF untrF : Bool) (resolve : Nat → String) (rk : Nat)
    (hooks : List WebHook) (i : Nat)
    (hi : i < (buildHooksMap hooks).length) :
    ((repoClassify regexStr dupF untrF resolve rk hooks).dup i = true ↔
      (cfgAt (buildHooksMap hooks) i ≠ "" ∧
       ∃ j, j < (buildHooksMap hooks).length ∧ j ≠ i ∧
         cfgAt (buildHooksMap hooks) j = cfgAt (buildHooksMap hooks) i)) := by
  rw [repoClassify_dup]
  rw [dupIter_char (buildHooksMap hooks) (buildHooksMap hooks).length le_rfl i]
  constructor
  · rintro ⟨_, h2, h3, _⟩
    exact ⟨h2, h3⟩
  · rintro ⟨h2, h3⟩
    exact ⟨hi, h2, h3, i, hi, rfl⟩

/-- C6 witness: the characterization applied to two concrete hooks
sharing a non-empty config URL shows the first is marked duplicate. -/
theorem duplicate_marking_witness :
    (repoClassify "N/A" true false (fun _ => "n") 0
      [c6Hook1, c6Hook2]).dup 0 = true :=
  (duplicate_marking_characterization "N/A" true false (fun _ => "n") 0
    [c6Hook1, c6Hook2] 0 (by decide)).mpr
    ⟨by decide, 1, by decide, by decide, by decide⟩

/-!
## Parsing the produced pattern strings

`convertTypesToRegex` joins the converted tokens with `|`;
`parseAlts` splits the produced string back and reads each
alternative.  For tokens without `|` or `\` — every token of a shaped
pattern set — the round trip recovers the tokens, with each `X`
standing for a digit wildcard.
-/

/-- Splitting a separator-free list yields that list alone. -/
theorem splitOnChar_no_sep (sep : Char) :
    ∀ (l : List Char), sep ∉ l → splitOnChar sep l = [l] := by
  intro l
  induction l with
  | nil => intro _; rfl
  | cons c rest ih =>
    intro h
    have hc : ¬(c = sep) := fun he => h (he ▸ List.mem_cons_self c rest)
    rw [show splitOnChar sep (c :: rest) =
      if c = sep then [] :: splitOnChar sep rest
      else consHead c (splitOnChar sep rest) from rfl]
    rw [if_neg hc, ih (fun hm => h (List.mem_cons_of_mem c hm))]
    rfl

/-- Splitting at the first separator peels off the separator-free
part before it. -/
theorem splitOnChar_append (sep : Char) (ys : List Char) :
    ∀ (xs : List Char), sep ∉ xs →
      splitOnChar sep (xs ++ sep :: ys) = xs :: splitOnChar sep ys := by
  intro xs
  induction xs with
  | nil => intro _; simp [splitOnChar]
  | cons c rest ih =>
    intro h
    have hc : ¬(c = sep) := fun he => h (he ▸ List.mem_cons_self c rest)
    rw [List.cons_append]
    rw [show splitOnChar sep (c :: (rest ++ sep :: ys)) =
      if c = sep then [] :: splitOnChar sep (rest ++ sep :: ys)
      else consHead c (splitOnChar sep (rest ++ sep :: ys)) from rfl]
    rw [if_neg hc, ih (fun hm => h (List.mem_cons_of_mem c hm))]
    rfl

/-- Splitting the `|`-join of `|`-free strings recovers them. -/
theorem splitOnChar_goJoin : ∀ (ts : List String), ts ≠ [] →
    (∀ s ∈ ts, '|' ∉ s.data) →
    splitOnChar '|' (goJoin ts "|").data = ts.map String.data := by
  intro ts
  induction ts with
  | nil => intro h; exact absurd rfl h
  | cons t rest ih =>
    intro _ hbars
    cases rest with
    | nil =>
      rw [show goJoin [t] "|" = t from rfl]
      rw [splitOnChar_no_sep '|' t.data (hbars t (by simp))]
      rfl
    | cons t2 rest2 =>
      rw [show goJoin (t :: t2 :: rest2) "|" =
        t ++ "|" ++ goJoin (t2 :: rest2) "|" from rfl]
      have hdata : (t ++ "|" ++ goJoin (t2 :: rest2) "|").data =
          t.data ++ '|' :: (goJoin (t2 :: rest2) "|").data := by
        rw [String.data_append, String.data_append]
        simp
      rw [hdata]
      rw [splitOnChar_append '|' _ t.data (hbars t (by simp))]
      rw [ih (by simp) (fun s hs => hbars s (by simp [hs]))]
      rfl

/-- A parsed alternative starting with a non-backslash character
starts with that literal. -/
theorem parseRSeq_cons_ne (c : Char) (l : List Char) (h : c ≠ '\\') :
    parseRSeq (c :: l) = RChar.lit c :: parseRSeq l := by
  cases l with
  | nil => simp [parseRSeq]
  | cons c2 rest => simp [parseRSeq, h]

/-- Parsing a converted backslash-free token reads each replaced `X`
as the digit wildcard and every other character as a literal. -/
theorem parseRSeq_replaceX : ∀ (l : List Char), '\\' ∉ l →
    parseRSeq (replaceXData l) = l.map toRChar := by
  intro l
  induction l with
  | nil => intro _; rfl
  | cons c rest ih =>
    intro hnb
    have hc : c ≠ '\\' := fun he => hnb (he ▸ List.mem_cons_self c rest)
    have hrest : '\\' ∉ rest := fun hm => hnb (List.mem_cons_of_mem c hm)
    by_cases hX : c = 'X'
    · subst hX
      rw [show replaceXData ('X' :: rest) = '\\' :: 'd' :: replaceXData rest
        from by simp [replaceXData]]
      rw [show parseRSeq ('\\' :: 'd' :: replaceXData rest) =
        RChar.digit :: parseRSeq (replaceXData rest) from by simp [parseRSeq]]
      rw [ih hrest]
      simp [toRChar]
    · rw [show replaceXData (c :: rest) = c :: replaceXData rest
        from by simp [replaceXData, hX]]
      rw [parseRSeq_cons_ne c _ hc, ih hrest]
      simp [toRChar, hX]

/-- Characters of a converted token come from the token or from the
inserted `\d`. -/
theorem mem_replaceXData : ∀ (l : List Char) (c : Char),
    c ∈ replaceXData l → c ∈ l ∨ c = '\\' ∨ c = 'd' := by
  intro l
  induction l with
  | nil => intro c h; simp [replaceXData] at h
  | cons a rest ih =>
    intro c h
    by_cases ha : a = 'X'
    · rw [show replaceXData (a :: rest) = '\\' :: 'd' :: replaceXData rest
        from by simp [replaceXData, ha]] at h
      rcases List.mem_cons.mp h with rfl | h2
      · exact Or.inr (Or.inl rfl)
      · rcases List.mem_cons.mp h2 with rfl | h3
        · exact Or.inr (Or.inr rfl)
        · rcases ih c h3 with hm | hm
          · exact Or.inl (List.mem_cons_of_mem a hm)
          · exact Or.inr hm
    · rw [show replaceXData (a :: rest) = a :: replaceXData rest
        from by simp [replaceXData, ha]] at h
      rcases List.mem_cons.mp h with rfl | h2
      · exact Or.inl (List.mem_cons_self _ _)
      · rcases ih c h2 with hm | hm
        · exact Or.inl (List.mem_cons_of_mem a hm)
        · exact Or.inr hm

/-- The wildcard prefix match is the parsed converted pattern's prefix
match. -/
theorem rSeqAt_map_toRChar : ∀ (l s : List Char),
    rSeqAt (l.map toRChar) s = wSeqAt l s := by
  intro l
  induction l with
  | nil => intro s; rfl
  | cons c cs ih =>
    intro s
    cases s with
    | nil => rfl
    | cons x xs =>
      simp only [List.map_cons, rSeqAt, wSeqAt, ih]
      by_cases hc : c = 'X' <;> simp [toRChar, wCharMatch, rCharMatch, hc]

/-- A shaped token is three characters, each a digit or `X`. -/
theorem shapedTok_data (t : String) (h : shapedTok t = true) :
    ∃ a b c, t.data = [a, b, c] ∧ asciiIsDigit a = true ∧
      (asciiIsDigit b = true ∨ b = 'X') ∧
      (asciiIsDigit c = true ∨ c = 'X') := by
  have ht := h
  unfold shapedTok at ht
  rcases hd : t.data with _ | ⟨a, tl⟩
  · rw [hd] at ht; simp at ht
  · rcases tl with _ | ⟨b, tl2⟩
    · rw [hd] at ht; simp at ht
    · rcases tl2 with _ | ⟨c, tl3⟩
      · rw [hd] at ht; simp at ht
      · rcases tl3 with _ | ⟨x, tl4⟩
        · rw [hd] at ht
          simp only [Bool.and_eq_true, Bool.or_eq_true, beq_iff_eq] at ht
          exact ⟨a, b, c, rfl, ht.1.1, ht.1.2, ht.2⟩
        · rw [hd] at ht; simp at ht

/-- A digit character is neither `|` nor `\`. -/
theorem asciiIsDigit_ne (ch : Char) (h : asciiIsDigit ch = true) :
    ch ≠ '|' ∧ ch ≠ '\\' := by
  refine ⟨fun he => ?_, fun he => ?_⟩ <;> subst he <;>
    exact absurd h (by decide)

/-- Shaped tokens contain no backslash. -/
theorem shapedTok_no_backslash (t : String) (h : shapedTok t = true) :
    '\\' ∉ t.data := by
  rcases shapedTok_data t h with ⟨a, b, c, hd, ha, hb, hc⟩
  rw [hd]
  intro hmem
  rcases List.mem_cons.mp hmem with rfl | hmem2
  · exact (asciiIsDigit_ne _ ha).2 rfl
  · rcases List.mem_cons.mp hmem2 with rfl | hmem3
    · rcases hb with hb | hb
      · exact (asciiIsDigit_ne _ hb).2 rfl
      · exact absurd hb (by decide)
    · rcases List.mem_cons.mp hmem3 with rfl | hmem4
      · rcases hc with hc | hc
        · exact (asciiIsDigit_ne _ hc).2 rfl
        · exact absurd hc (by decide)
      · simp at hmem4

/-- Converted shaped tokens contain no `|`. -/
theorem shapedTok_no_bar (t : String) (h : shapedTok t = true) :
    '|' ∉ (replaceX t).data := by
  intro hmem
  rw [show (replaceX t).data = replaceXData t.data from rfl] at hmem
  rcases mem_replaceXData t.data '|' hmem with hm | hm | hm
  · rcases shapedTok_data t h with ⟨a, b, c, hd, ha, hb, hc⟩
    rw [hd] at hm
    rcases List.mem_cons.mp hm with rfl | hm2
    · exact (asciiIsDigit_ne _ ha).1 rfl
    · rcases List.mem_cons.mp hm2 with rfl | hm3
      · rcases hb with hb | hb
        · exact (asciiIsDigit_ne _ hb).1 rfl
        · exact absurd hb (by decide)
      · rcases List.mem_cons.mp hm3 with rfl | hm4
        · rcases hc with hc | hc
          · exact (asciiIsDigit_ne _ hc).1 rfl
          · exact absurd hc (by decide)
        · simp at hm4
  · exact absurd hm (by decide)
  · exact absurd hm (by decide)

/-- The pattern string compiled from a nonempty list of shaped tokens
parses back into the tokens, each `X` as a digit wildcard. -/
theorem parseAlts_convertTypesToRegex (types : List String)
    (hne : types ≠ []) (hshaped : ∀ t ∈ types, shapedTok t = true) :
    parseAlts (convertTypesToRegex types) =
      types.map (fun t => (t.data).map toRChar) := by
  unfold parseAlts convertTypesToRegex
  rw [splitOnChar_goJoin (types.map replaceX)
    (fun hnil => hne (List.map_eq_nil_iff.mp hnil))
    (fun s hs => by
      rcases List.mem_map.mp hs with ⟨t, htm, rfl⟩
      exact shapedTok_no_bar t (hshaped t htm))]
  rw [List.map_map, List.map_map]
  apply List.map_congr_left
  intro t htm
  exact parseRSeq_replaceX t.data (shapedTok_no_backslash t (hshaped t htm))

/-!
## Characters of a code string

`Code` is the uppercased decimal print of an integer; its characters
are digits and possibly a leading minus sign, so the `N/A` sentinel
pattern can never match it.
-/

/-- Every character `natDigitsAux` produces is a digit. -/
theorem natDigitsAux_digits : ∀ (fuel n : Nat) (c : Char),
    c ∈ natDigitsAux fuel n → asciiIsDigit c = true := by
  intro fuel
  induction fuel with
  | zero => intro n c h; simp [natDigitsAux] at h
  | succ fuel ih =>
    intro n c h
    rw [natDigitsAux] at h
    split at h
    · rcases List.mem_singleton.mp h with rfl
      have hlt : n < 10 := by assumption
      revert hlt
      revert n
      decide
    · rcases List.mem_append.mp h with h2 | h2
      · exact ih _ _ h2
      · rcases List.mem_singleton.mp h2 with rfl
        have hlt : n % 10 < 10 := Nat.mod_lt _ (by norm_num)
        revert hlt
        generalize n % 10 = m
        revert m
        decide

/-- Every character of `strconv.Itoa` output is a digit or `-`. -/
theorem goItoa_chars (i : Int) (c : Char) (h : c ∈ (goItoa i).data) :
    asciiIsDigit c = true ∨ c = '-' := by
  unfold goItoa at h
  split at h
  · rw [show (String.mk ('-' :: natDigits i.natAbs)).data =
      '-' :: natDigits i.natAbs from rfl] at h
    rcases List.mem_cons.mp h with rfl | h2
    · exact Or.inr rfl
    · exact Or.inl (natDigitsAux_digits _ _ _ h2)
  · rw [show (String.mk (natDigits i.toNat)).data =
      natDigits i.toNat from rfl] at h
    exact Or.inl (natDigitsAux_digits _ _ _ h)

/-- Uppercasing leaves digits unchanged. -/
theorem asciiUpper_digit (c : Char) (h : asciiIsDigit c = true) :
    asciiUpper c = c := by
  unfold asciiIsDigit at h
  simp only [Bool.and_eq_true, decide_eq_true_eq] at h
  unfold asciiUpper
  rw [if_neg (by omega)]

/-- The letter `N` never occurs in a `Code` string. -/
theorem hookCode_no_N (h : WebHook) : 'N' ∉ (hookCode h).data := by
  intro hmem
  unfold hookCode goToUpper at hmem
  rw [show (String.mk ((goItoa h.lastResponseCode).data.map asciiUpper)).data =
    (goItoa h.lastResponseCode).data.map asciiUpper from rfl] at hmem
  rcases List.mem_map.mp hmem with ⟨c, hc, hce⟩
  rcases goItoa_chars _ c hc with hd | rfl
  · rw [asciiUpper_digit c hd] at hce
    subst hce
    exact absurd hd (by decide)
  · exact absurd hce (by decide)

/-!
## Claims C4 and C5, amended
-/

/-- The validation test equals the containment-of-a-shape test: the
compiled validation pattern matches somewhere in the token iff the
token contains a three-character substring of shape `\d\d\d`, `\dxx`
or `\d\dx` (`x` case-insensitive). -/
theorem typesTokenOK_eq_specContainsShape (t : String) :
    typesTokenOK t = specContainsShape t := by
  unfold typesTokenOK rMatchData specContainsShape
  congr 1
  funext suf
  rcases suf with _ | ⟨a, _ | ⟨b, _ | ⟨c, rest⟩⟩⟩ <;>
    simp [valAlts, rSeqAt, rCharMatch, specShape3Head, specShape3, isXc,
      Bool.or_assoc, Bool.and_assoc, Bool.beq_comm]

/-- C5 amended: for every types flag other than the sentinel `none`,
validation reports an error iff some comma-separated token contains no
three-character substring of shape `\d\d\d`, `\dxx` or `\d\dx`
(`x` case-insensitive; containment, not exact equality, and the third
shape is `\d\dx`, not `\dx`); and whenever validation reports an
error, the destroy run exits fatally with an empty trace — before any
network access. -/
theorem validation_containment_characterization :
    (∀ flag : String, goToLower flag ≠ "none" →
      ((validateTypesFlag flag).2.isSome = true ↔
        ∃ t ∈ goSplit flag ',', specContainsShape t = false)) ∧
    (∀ (flag : String) (dupF untrF listF : Bool) (backupFlag : String)
        (repos : List String) (env : Env),
      (validateTypesFlag flag).2.isSome = true →
      executeDestroy flag dupF untrF listF backupFlag repos env =
        ([], Outcome.fatal)) := by
  constructor
  · intro flag hs
    unfold validateTypesFlag
    rw [if_neg hs]
    dsimp only
    constructor
    · intro hI
      split at hI
      · next hlen =>
        have hne : (goSplit flag ',').filter (fun t => !(typesTokenOK t)) ≠ [] := by
          intro hnil
          rw [hnil] at hlen
          simp at hlen
        rcases List.exists_mem_of_ne_nil _ hne with ⟨t, ht⟩
        refine ⟨t, List.mem_of_mem_filter ht, ?_⟩
        have htp := List.of_mem_filter ht
        rw [← typesTokenOK_eq_specContainsShape]
        cases hq : typesTokenOK t
        · rfl
        · rw [hq] at htp
          exact absurd htp (by decide)
      · simp at hI
    · rintro ⟨t, htm, htf⟩
      have hmem : t ∈ (goSplit flag ',').filter (fun t => !(typesTokenOK t)) :=
        List.mem_filter.mpr ⟨htm, by
          rw [Bool.not_eq_true', typesTokenOK_eq_specContainsShape]
          exact htf⟩
      rw [if_pos (List.length_pos.mpr (List.ne_nil_of_mem hmem))]
      rfl
  · intro flag dupF untrF listF backupFlag repos env he
    unfold executeDestroy
    cases hv : (validateTypesFlag flag).2 with
    | none => rw [hv] at he; simp at he
    | some msg => rfl


/-- C5 witness: the amended characterization applied at the concrete
flag `junk` — rejected by validation — and a concrete environment. -/
theorem validation_containment_witness :
    (validateTypesFlag "junk").2.isSome = true ∧
    executeDestroy "junk" false false false "" [] c10Env =
      ([], Outcome.fatal) :=
  ⟨(validation_containment_characterization.1 "junk" (by decide)).mpr
      (by decide),
   validation_containment_characterization.2 "junk" false false false ""
      [] c10Env (by decide)⟩

/-- C4 amended: for every nonempty pattern set of shaped tokens
(three characters, digits or `X`) and every code string, the destroy
match holds iff some pattern, with each `X` a single-digit wildcard,
matches some contiguous substring of the code position by position
(Go `MatchString` is unanchored); and with the sentinel `none` no
code string ever matches. -/
theorem destroy_match_characterization :
    (∀ (types : List String) (C : String), types ≠ [] →
      (∀ t ∈ types, shapedTok t = true) →
      (destroyMatch types C = true ↔
        ∃ t ∈ types, ∃ suf, suf <:+ C.data ∧ wSeqAt t.data suf = true)) ∧
    (∀ h : WebHook,
      destroyMatch (validateTypesFlag "none").1 (hookCode h) = false) := by
  constructor
  · intro types C hne hshaped
    unfold destroyMatch goRegexMatchString
    rw [parseAlts_convertTypesToRegex types hne hshaped]
    unfold rMatchData
    rw [List.any_eq_true]
    constructor
    · rintro ⟨suf, hsuf, halt⟩
      rw [List.any_eq_true] at halt
      rcases halt with ⟨alt, haltm, hmatch⟩
      rcases List.mem_map.mp haltm with ⟨t, htm, rfl⟩
      rw [rSeqAt_map_toRChar] at hmatch
      exact ⟨t, htm, suf, (List.mem_tails _ _).mp hsuf, hmatch⟩
    · rintro ⟨t, htm, suf, hsuf, hw⟩
      refine ⟨suf, (List.mem_tails _ _).mpr hsuf, List.any_eq_true.mpr
        ⟨t.data.map toRChar, List.mem_map_of_mem _ htm, ?_⟩⟩
      rw [rSeqAt_map_toRChar]
      exact hw
  · intro h
    have h1 : (validateTypesFlag "none").1 = ["N/A"] := by decide
    rw [h1]
    unfold destroyMatch goRegexMatchString
    have h2 : parseAlts (convertTypesToRegex ["N/A"]) =
        [[RChar.lit 'N', RChar.lit '/', RChar.lit 'A']] := by decide
    rw [h2]
    unfold rMatchData
    rw [List.any_eq_false]
    intro suf hsuf
    have hsub : suf <:+ (hookCode h).data := (List.mem_tails _ _).mp hsuf
    cases suf with
    | nil => simp [rSeqAt]
    | cons c cs =>
      have hcmem : c ∈ (hookCode h).data :=
        hsub.subset (List.mem_cons_self c cs)
      have hcN : ('N' == c) = false := by
        cases hb : ('N' == c)
        · rfl
        · rw [← eq_of_beq hb] at hcmem
          exact absurd hcmem (hookCode_no_N h)
      simp [rSeqAt, rCharMatch, hcN]

/-- C4 witness: the amended characterization applied at the shaped
pattern set `[4XX]` with code `404`, and the `none` sentinel with a
concrete webhook. -/
theorem destroy_match_characterization_witness :
    destroyMatch ["4XX"] "404" = true ∧
    destroyMatch (validateTypesFlag "none").1
      (hookCode { id := 0, url := "u", name := "n",
                  configURL := "", lastResponseCode := 200 }) = false :=
  ⟨(destroy_match_characterization.1 ["4XX"] "404" (by decide)
      (by decide)).mpr
      ⟨"4XX", by decide, "404".data, List.suffix_refl _, by decide⟩,
   destroy_match_characterization.2 _⟩

end Webhookit
